import Mathlib

/-!
Verification of the ionic-solana-indexer transaction pipeline.

This file is a shallow embedding, in Lean 4, of the Python sources of the
`ionic-trade/solana-indexer` repository:

* `block/transactions/raw_transaction.py` — the `RawTransaction` record and its
  derived views (`main_signature`, `all_instructions`, `token_transfers`, ...);
* `data_source/rpc/rpc_transaction_converter.py` — the compact-u16 varint codec,
  the wire-format transaction decoder, and the block/wrapper converters;
* `block/block.py` — `TransactionWrapper.extend_keys_with_lookup_table_accounts`;
* `coders/base_coder.py` — `BaseCoder.parse_transaction` and `CoderRegistry`.

Modelling conventions:

* Python `bytes` values are `List Nat` with every element < 256 (hypotheses or
  construction enforce the bound where it matters).
* Python machine-independent `int` is `Nat`/`Int` as appropriate; header
  subtraction such as `num_required_signatures - num_readonly_signed_accounts`
  is computed in `Int`, as Python ints are signed.
* A Python function that can raise is modelled in the `Except String` monad;
  the error string names the Python exception class.
* Transaction payloads are modelled as the byte sequence that
  `base64.b64decode` yields; the base64 transport envelope is outside the
  decoded-byte model.  `base58.b58encode` / `base64.b64encode` (used to render
  pubkeys, signatures and instruction data) are implemented below.
* Python `dict` display comprehensions are modelled as association lists where
  lookup takes the value of the *last* binding, matching dict overwrite
  semantics.  Opaque `dict`-typed payloads that no modelled code inspects
  (e.g. the transaction error payload) are modelled as `String`.
-/

namespace SolanaIndexer

/-! ## Python primitives -/

/-- `int(s)` on an optionally signed decimal-digit string; any other shape
raises `ValueError` (whitespace/underscore forms are outside the model). -/
def pyInt (s : String) : Except String Int :=
  let core (ds : List Char) : Except String Nat :=
    if ds ≠ [] ∧ ds.all Char.isDigit then
      Except.ok (ds.foldl (fun acc c => acc * 10 + (c.toNat - 48)) 0)
    else
      Except.error "ValueError"
  match s.toList with
  | '-' :: rest => do
      let n ← core rest
      pure (-(n : Int))
  | '+' :: rest => do
      let n ← core rest
      pure (n : Int)
  | ds => do
      let n ← core ds
      pure (n : Int)

/-- Digits of `n` in base 58, most significant first, using the Bitcoin
alphabet; structural fuel keeps the definition kernel-reducible. -/
def b58digitsAux : Nat → Nat → List Char
  | 0, _ => []
  | _ + 1, 0 => []
  | fuel + 1, n =>
      let alphabet := "123456789ABCDEFGHJKLMNPQRSTUVWXYZabcdefghijkmnopqrstuvwxyz"
      b58digitsAux fuel (n / 58) ++ [alphabet.toList.getD (n % 58) '?']

/-- `base58.b58encode(bs).decode('utf-8')`: leading zero bytes become `'1'`s,
the remainder is the base-58 numeral of the big-endian value. -/
def b58encode (bs : List Nat) : String :=
  let zeros := (bs.takeWhile (· = 0)).length
  let value := bs.foldl (fun acc b => acc * 256 + b) 0
  String.mk (List.replicate zeros '1' ++ b58digitsAux value value)

/-- One output quantum of standard base64: 3 input bytes to 4 characters,
with `'='` padding for 1- or 2-byte tails. -/
def b64chunk (bs : List Nat) : List Char :=
  let alph := "ABCDEFGHIJKLMNOPQRSTUVWXYZabcdefghijklmnopqrstuvwxyz0123456789+/"
  let at_ (i : Nat) : Char := alph.toList.getD i '?'
  match bs with
  | [b0] => [at_ (b0 / 4), at_ (b0 % 4 * 16), '=', '=']
  | [b0, b1] => [at_ (b0 / 4), at_ (b0 % 4 * 16 + b1 / 16), at_ (b1 % 16 * 4), '=']
  | b0 :: b1 :: b2 :: _ =>
      [at_ (b0 / 4), at_ (b0 % 4 * 16 + b1 / 16), at_ (b1 % 16 * 4 + b2 / 64), at_ (b2 % 64)]
  | [] => []

/-- Characters of `base64.b64encode(bs)`, chunk by chunk. -/
def b64chars : List Nat → List Char
  | [] => []
  | b0 :: rest =>
      match rest with
      | [] => b64chunk [b0]
      | [b1] => b64chunk [b0, b1]
      | b1 :: b2 :: tail => b64chunk [b0, b1, b2] ++ b64chars tail

/-- `base64.b64encode(bs).decode('utf-8')`. -/
def b64encode (bs : List Nat) : String :=
  String.mk (b64chars bs)

/-- Lookup in an association list with Python-dict overwrite semantics: the
*last* binding for a key wins. -/
def lookupLast {α β : Type} [DecidableEq α] (l : List (α × β)) (k : α) : Option β :=
  match l with
  | [] => none
  | (k', v) :: rest =>
      match lookupLast rest k with
      | some v' => some v'
      | none => if k' = k then some v else none

/-! ## `block/transactions/raw_transaction.py` — data model -/

/-- `UiTokenAmount`: token amount with UI representation. -/
structure UiTokenAmount where
  amount : String
  decimals : Int
  uiAmount : Option Float
  uiAmountString : String

/-- `TokenBalanceChange`: token balance change information. -/
structure TokenBalanceChange where
  accountIndex : Nat
  mint : String
  owner : String
  programId : String
  uiTokenAmount : UiTokenAmount

/-- The `info` sub-dict of a `parsed` instruction payload; only the keys the
repository reads are modelled, each optional as in a Python dict. -/
structure ParsedInfo where
  source : Option String
  destination : Option String
  newAccount : Option String
  lamports : Option Int

/-- The `parsed` dict of an instruction: the repository reads `type` and
`info`. -/
structure ParsedDict where
  type_ : Option String
  info : Option ParsedInfo

/-- `parsed: Optional[dict | str]` — a parsed payload is either a string or a
dict. -/
inductive ParsedVal where
  | str (s : String)
  | dict (d : ParsedDict)

/-- `InstructionField`: individual instruction within a transaction. -/
structure InstructionField where
  programId : String
  stackHeight : Option Int := none
  program : Option String := none
  parsed : Option ParsedVal := none
  data : Option String := none
  accounts : Option (List String) := none

/-- `InstructionField.is_parsed`. -/
def InstructionField.is_parsed (ix : InstructionField) : Bool :=
  match ix.parsed with
  | none => false
  | some (.str _) => false
  | some (.dict _) => true

/-- `InnerInstruction`: inner instruction group with outer index. -/
structure InnerInstruction where
  index : Nat
  instructions : List InstructionField

/-- `AccountKey`: account key with metadata. -/
structure AccountKey where
  pubkey : String
  signer : Bool
  source : String
  writable : Bool

/-- `TransactionMessage` (raw_transaction.py). `addressTableLookups` is a list
of opaque dicts, modelled as strings. -/
structure TransactionMessage where
  accountKeys : List AccountKey
  instructions : List InstructionField
  recentBlockhash : String
  addressTableLookups : Option (List String) := none

/-- `ParsedTransaction`: message plus signatures. -/
structure ParsedTransaction where
  message : TransactionMessage
  signatures : List String

/-- `status`/`err` payloads are opaque dicts to the modelled code; the only
observation made of `err` is `is None`. -/
structure TransactionsMeta where
  computeUnitsConsumed : Int
  fee : Int
  innerInstructions : List InnerInstruction
  logMessages : List String
  postBalances : List Int
  postTokenBalances : List TokenBalanceChange
  preBalances : List Int
  preTokenBalances : List TokenBalanceChange
  status : List (String × Option String)
  rewards : Option (List String)
  err : Option String
  costUnits : Option Int := none

/-- `TransactionResult`.  The msgspec schema declares `meta` required, but
`convert_transaction_wrapper` constructs results with `meta=None` when the
wrapper has no metadata, so the runtime field is optional; attribute access on
a missing meta raises, which the accessors below model in `Except`. -/
structure TransactionResult where
  blockTime : Int
  meta : Option TransactionsMeta
  slot : Int
  transaction : ParsedTransaction
  version : Int

/-- `RawTransaction`: complete raw transaction. -/
structure RawTransaction where
  jsonrpc : String
  result : TransactionResult
  id : Int

/-- Sort key comparison used by `all_instructions`:
`ix.stackHeight if ix.stackHeight is not None else float('inf')`. -/
def stackKeyLE (a b : Option Int) : Bool :=
  match a, b with
  | some x, some y => x ≤ y
  | some _, none => true
  | none, none => true
  | none, some _ => false

/-- The total preorder on instructions induced by the stack-height sort key. -/
def stackRel (a b : InstructionField) : Prop :=
  stackKeyLE a.stackHeight b.stackHeight = true

instance : DecidableRel stackRel := fun a b =>
  inferInstanceAs (Decidable (_ = true))

instance : IsTotal InstructionField stackRel := by
  constructor
  intro a b
  unfold stackRel stackKeyLE
  rcases a.stackHeight with _ | x <;> rcases b.stackHeight with _ | y <;> simp <;> omega

instance : IsTrans InstructionField stackRel := by
  constructor
  intro a b c
  unfold stackRel stackKeyLE
  rcases a.stackHeight with _ | x <;> rcases b.stackHeight with _ | y <;>
    rcases c.stackHeight with _ | z <;> simp <;> omega

namespace RawTransaction

/-- `RawTransaction.main_signature`. -/
def main_signature (tx : RawTransaction) : String :=
  match tx.result.transaction.signatures with
  | [] => "unknown_signature"
  | s :: _ => s

/-- `RawTransaction.slot`. -/
def slot (tx : RawTransaction) : Int :=
  tx.result.slot

/-- `RawTransaction.block_time`. -/
def block_time (tx : RawTransaction) : Int :=
  tx.result.blockTime

/-- Access `result.meta`, raising `AttributeError` when the converter stored
`None` there. -/
def getMeta (tx : RawTransaction) : Except String TransactionsMeta :=
  match tx.result.meta with
  | some m => Except.ok m
  | none => Except.error "AttributeError"

/-- `RawTransaction.is_successful`. -/
def is_successful (tx : RawTransaction) : Except String Bool := do
  let m ← tx.getMeta
  pure (m.err matches none)

/-- `RawTransaction.all_instructions`: outer instructions in order, each
followed by its inner group (dict of groups keyed by outer index, last entry
winning), the group sorted by `stackHeight` (missing height sorts last).
Python's `sorted` is a stable sort and stable sorting under a total preorder
has a unique result, so it is modelled by stable insertion sort over
`stackRel`. -/
def all_instructions (tx : RawTransaction) : Except String (List InstructionField) := do
  let m ← tx.getMeta
  let outer := tx.result.transaction.message.instructions
  let innerMap := m.innerInstructions.map (fun g => (g.index, g.instructions))
  pure <| (outer.enum.map (fun (i, outerIx) =>
    match lookupLast innerMap i with
    | some group => outerIx :: List.insertionSort stackRel group
    | none => [outerIx])).flatten

/-- `RawTransaction.signers`. -/
def signers (tx : RawTransaction) : List String :=
  (tx.result.transaction.message.accountKeys.filter (·.signer)).map (·.pubkey)

/-- One element of the `native_transfers` result list. -/
structure NativeTransfer where
  from_ : String
  to_ : String
  amount : Int
  instruction_index : Nat

/-- `dict.get(k)` on the optional `info` sub-dict, with `{}` as the default
dict: absent `info` behaves as an empty dict. -/
def infoOf (d : ParsedDict) : ParsedInfo :=
  match d.info with
  | some i => i
  | none => ⟨none, none, none, none⟩

/-- `RawTransaction.native_transfers`: scans inner instructions whose parsed
payload is a dict with `type == "transfer"` and a `lamports` key; reading the
mandatory `"source"` key raises `KeyError` if absent, and
`info.get("destination") or info.get("newAccount")` takes the first
non-`None` (a present `None`/falsy value falls through). -/
def native_transfers (tx : RawTransaction) : Except String (List NativeTransfer) := do
  let m ← tx.getMeta
  m.innerInstructions.foldlM (fun acc g =>
    g.instructions.foldlM (fun acc ix =>
      match ix.parsed with
      | some (.dict d) =>
          if d.type_ = some "transfer" then
            let info := infoOf d
            match info.lamports with
            | some lam => do
                let src ← match info.source with
                  | some s => Except.ok s
                  | none => Except.error "KeyError"
                let dst := match info.destination with
                  | some s => s
                  | none => (info.newAccount).getD ""
                pure (acc ++ [⟨src, dst, lam, g.index⟩])
            | none => pure acc
          else
            pure acc
      | _ => pure acc) acc) []

/-- One element of the `token_transfers` result list. -/
structure TokenTransfer where
  account : String
  mint : String
  amount_change : Int
  pre_amount : Int
  post_amount : Int

/-- `accounts[tb.accountIndex]`, raising `IndexError` out of range. -/
def accountAt (accounts : List String) (i : Nat) : Except String String :=
  match accounts.get? i with
  | some a => Except.ok a
  | none => Except.error "IndexError"

/-- Build the `{(account, mint): amount}` dict of one balance snapshot. -/
def balanceMap (accounts : List String) (tbs : List TokenBalanceChange) :
    Except String (List ((String × String) × String)) :=
  tbs.mapM (fun tb => do
    let a ← accountAt accounts tb.accountIndex
    pure ((a, tb.mint), tb.uiTokenAmount.amount))

/-- `int(balances.get((account, mint), "0"))` — the per-side amount read of
`token_transfers`. -/
def snapshotVal (snap : List ((String × String) × String)) (p : String × String) :
    Except String Int :=
  pyInt ((lookupLast snap p).getD "0")

/-- `RawTransaction.token_transfers`: for every (account, mint) pair in either
snapshot, compare `int(pre)` with `int(post)` (missing side defaults to
`"0"`) and report the non-zero changes.  The Python `set` union is modelled
as a duplicate-free key list; the properties proved about the result are
iteration-order independent. -/
def token_transfers (tx : RawTransaction) : Except String (List TokenTransfer) := do
  let m ← tx.getMeta
  let accounts := tx.result.transaction.message.accountKeys.map (·.pubkey)
  let pre ← balanceMap accounts m.preTokenBalances
  let post ← balanceMap accounts m.postTokenBalances
  let allPairs := (pre.map Prod.fst ++ post.map Prod.fst).dedup
  allPairs.foldlM (fun acc (p : String × String) => do
    let preAmount ← snapshotVal pre p
    let postAmount ← snapshotVal post p
    if preAmount ≠ postAmount then
      pure (acc ++ [⟨p.1, p.2, postAmount - preAmount, preAmount, postAmount⟩])
    else
      pure acc) []

end RawTransaction

/-! ## `rpc_transaction_converter.py` — `SolanaTransactionDecoder` -/

/-- `SolanaTransactionDecoder.decode_compact_u16`. -/
def decode_compact_u16 (data : List Nat) (offset : Nat) : Nat × Nat :=
  if offset ≥ data.length then (0, offset)
  else
    let first_byte := data.getD offset 0
    if first_byte < 0x80 then
      (first_byte, offset + 1)
    else if first_byte < 0xc0 then
      if offset + 1 ≥ data.length then (0, offset)
      else (((first_byte &&& 0x7f) <<< 8) ||| data.getD (offset + 1) 0, offset + 2)
    else
      if offset + 2 ≥ data.length then (0, offset)
      else
        (((first_byte &&& 0x3f) <<< 16) ||| (data.getD (offset + 1) 0 <<< 8) |||
            data.getD (offset + 2) 0,
          offset + 3)

/-- The byte length of the encoding that `decode_compact_u16` commits to after
inspecting the first byte: 1, 2 or 3. -/
def compactU16NeededLen (first_byte : Nat) : Nat :=
  if first_byte < 0x80 then 1 else if first_byte < 0xc0 then 2 else 3

/-- Modelled from the spec: the claim's encoding — 1 byte holding `n` if
`n < 0x80`; for `n < 0x4000` the 7 low bits of `n` in byte 0 with the top bit
set, the next 7 bits in byte 1 (little-endian base-128); 3 bytes otherwise,
continuing the capped little-endian varint (the spec's "6+8+8 bits" leaves the
3-byte layout underdetermined; only the 1- and 2-byte classes are used to
settle the claim). -/
def specCompactU16Encode (n : Nat) : List Nat :=
  if n < 0x80 then [n]
  else if n < 0x4000 then [0x80 + n % 0x80, n / 0x80]
  else [0x80 + n % 0x80, 0x80 + n / 0x80 % 0x80, n / 0x4000]

/-- The encoding that `decode_compact_u16` actually inverts: big-endian, with
the high bits in the first byte — `[n]` if `n < 0x80`; `[0x80 + n / 0x100,
n % 0x100]` if `n < 0x4000`; `[0xc0 + n / 0x10000, n / 0x100 % 0x100,
n % 0x100]` for `n < 0x400000`. -/
def compactU16Encode (n : Nat) : List Nat :=
  if n < 0x80 then [n]
  else if n < 0x4000 then [0x80 + n / 0x100, n % 0x100]
  else [0xc0 + n / 0x10000, n / 0x100 % 0x100, n % 0x100]

/-- `SolanaTransactionDecoder.decode_pubkey`. -/
def decode_pubkey (data : List Nat) (offset : Nat) : String × Nat :=
  if offset + 32 > data.length then ("invalid_pubkey", offset)
  else (b58encode ((data.drop offset).take 32), offset + 32)

/-- The signature-reading loop of `decode_transaction`: up to
`num_signatures` iterations, breaking when fewer than 64 bytes remain. -/
def decodeSigsLoop (data : List Nat) (offset : Nat) : Nat → List String × Nat
  | 0 => ([], offset)
  | k + 1 =>
      if offset + 64 > data.length then ([], offset)
      else
        let sig := b58encode ((data.drop offset).take 64)
        let (rest, off) := decodeSigsLoop data (offset + 64) k
        (sig :: rest, off)

/-- `i < num_required_signatures` — the signer test of the account loop. -/
def is_signer_flag (i nrs : Nat) : Bool :=
  i < nrs

/-- The writable test of the account loop, verbatim:
`(i < nrs - nrss) or (i >= nrs and i < num_accounts - nrua)`, with the
subtractions over Python (signed) integers. -/
def is_writable_flag (i n nrs nrss nrua : Nat) : Bool :=
  ((i : Int) < (nrs : Int) - (nrss : Int)) ||
    (decide (i ≥ nrs) && decide ((i : Int) < (n : Int) - (nrua : Int)))

/-- The account-key loop of `decode_transaction`: index `i` counts up while
`remaining` counts down from `num_accounts`; yields the `AccountKey` list, the
plain address list and the final offset. -/
def decodeAccountsLoop (data : List Nat) (offset : Nat) (i : Nat)
    (n nrs nrss nrua : Nat) : Nat → List AccountKey × List String × Nat
  | 0 => ([], [], offset)
  | remaining + 1 =>
      let (pubkey, off) := decode_pubkey data offset
      let key : AccountKey :=
        { pubkey := pubkey
          signer := is_signer_flag i nrs
          writable := is_writable_flag i n nrs nrss nrua
          source := "transaction" }
      let (keys, addrs, offF) := decodeAccountsLoop data off (i + 1) n nrs nrss nrua remaining
      (key :: keys, pubkey :: addrs, offF)

/-- The account-index loop inside the instruction loop: each of the
`num_account_indices` iterations appends one byte only while the offset is
in bounds (no break — out-of-bounds iterations are no-ops). -/
def readIndicesLoop (data : List Nat) (offset : Nat) : Nat → List Nat × Nat
  | 0 => ([], offset)
  | k + 1 =>
      if offset < data.length then
        let b := data.getD offset 0
        let (rest, off) := readIndicesLoop data (offset + 1) k
        (b :: rest, off)
      else
        readIndicesLoop data offset k

/-- `account_addresses[program_id_index] if program_id_index <
len(account_addresses) else "unknown"`. -/
def resolveProgramId (addrs : List String) (idx : Nat) : String :=
  if idx < addrs.length then addrs.getD idx "" else "unknown"

/-- The account-address resolution loop: indices in range are resolved,
out-of-range indices are silently skipped. -/
def resolveAccounts (addrs : List String) (idxs : List Nat) : List String :=
  idxs.filterMap (fun idx => if idx < addrs.length then some (addrs.getD idx "") else none)

/-- The instruction loop of `decode_transaction`, breaking when the offset
reaches the end of the buffer. -/
def decodeInstructionsLoop (data : List Nat) (offset : Nat) (addrs : List String) :
    Nat → List InstructionField × Nat
  | 0 => ([], offset)
  | k + 1 =>
      if offset ≥ data.length then ([], offset)
      else
        let program_id_index := data.getD offset 0
        let offset := offset + 1
        let (num_account_indices, offset) := decode_compact_u16 data offset
        let (account_indices, offset) := readIndicesLoop data offset num_account_indices
        let (data_len, offset) := decode_compact_u16 data offset
        let (instruction_data, offset) :=
          if offset + data_len ≤ data.length then
            (b64encode ((data.drop offset).take data_len), offset + data_len)
          else ("", offset)
        let ix : InstructionField :=
          { programId := resolveProgramId addrs program_id_index
            accounts := some (resolveAccounts addrs account_indices)
            data := some instruction_data
            stackHeight := some 1 }
        let (rest, offF) := decodeInstructionsLoop data offset addrs k
        (ix :: rest, offF)

/-- `SolanaTransactionDecoder.decode_transaction`, on the bytes that
`base64.b64decode` yields.  With byte input no statement of the body can
raise, so the `except` branch (which exists for base64 envelope errors and
returns `([], [], [], "")`) is not reachable in the model. -/
def decode_transaction (txBytes : List Nat) :
    List String × List AccountKey × List InstructionField × String :=
  if txBytes.length < 1 then ([], [], [], "")
  else
    let offset := 0
    let num_signatures := txBytes.getD offset 0
    let offset := offset + 1
    let (signatures, offset) := decodeSigsLoop txBytes offset num_signatures
    if offset + 3 > txBytes.length then (signatures, [], [], "")
    else
      let nrs := txBytes.getD offset 0
      let nrss := txBytes.getD (offset + 1) 0
      let nrua := txBytes.getD (offset + 2) 0
      let offset := offset + 3
      let (num_accounts, offset) := decode_compact_u16 txBytes offset
      let (account_keys, account_addresses, offset) :=
        decodeAccountsLoop txBytes offset 0 num_accounts nrs nrss nrua num_accounts
      let (recent_blockhash, offset) :=
        if offset + 32 ≤ txBytes.length then
          (b58encode ((txBytes.drop offset).take 32), offset + 32)
        else ("", offset)
      let (num_instructions, offset) := decode_compact_u16 txBytes offset
      let (instructions, _) :=
        decodeInstructionsLoop txBytes offset account_addresses num_instructions
      (signatures, account_keys, instructions, recent_blockhash)

/-! ## `block_structs_base64.py` — provider-envelope structures -/

/-- `LoadedAddresses`. -/
structure LoadedAddresses where
  writable : List String
  readonly : List String

/-- `TokenBalance` of the provider envelope (`owner`/`programId` optional). -/
structure B64TokenBalance where
  accountIndex : Nat
  mint : String
  owner : Option String
  programId : Option String
  uiTokenAmount : UiTokenAmount

/-- `Instruction.accounts: Any` — index form before lookup-table resolution,
address form after. -/
inductive AccountsField where
  | indices (l : List Nat)
  | addresses (l : List String)

/-- `Instruction` of the provider envelope. -/
structure B64Instruction where
  programIdIndex : Nat
  accounts : AccountsField
  data : String
  stackHeight : Option Int

/-- `InnerInstruction` of the provider envelope. -/
structure B64InnerInstruction where
  index : Nat
  instructions : List B64Instruction

/-- Provider transaction metadata.  `err`, `rewards`, `status` and
`returnData` are opaque to every modelled consumer and carried as plain
payloads. -/
structure B64TransactionMeta where
  err : Option String
  fee : Int
  preBalances : List Int
  postBalances : List Int
  innerInstructions : Option (List B64InnerInstruction)
  preTokenBalances : Option (List B64TokenBalance)
  postTokenBalances : Option (List B64TokenBalance)
  logMessages : Option (List String)
  rewards : Option (List String)
  status : Option String := none
  loadedAddresses : Option LoadedAddresses := none
  returnData : Option String := none
  computeUnitsConsumed : Option Int := none

/-- `version: Literal["legacy"] | int | None`. -/
inductive B64Version where
  | legacy
  | num (n : Int)
  | null

/-- `TransactionWrapper` of the provider envelope.  The
`tuple[str, "base64"]` payload is a list whose first element is the (decoded)
payload bytes and whose second is the encoding marker; the converter reads
only `transaction[0]` and `len(transaction)`. -/
structure B64TransactionWrapper where
  transaction : List (List Nat)
  meta : Option B64TransactionMeta
  version : B64Version

/-- `Block` of the provider envelope. -/
structure B64Block where
  blockhash : String
  previousBlockhash : String
  parentSlot : Int
  transactions : List B64TransactionWrapper
  blockTime : Option Int
  blockHeight : Option Int
  signatures : Option (List String) := none
  rewards : Option (List String) := none

/-! ## `rpc_transaction_converter.py` — `TransactionConverter` -/

/-- Token-balance conversion inside `convert_transaction_wrapper`:
`owner`/`programId` default to `""` when falsy. -/
def convertTokenBalance (tb : B64TokenBalance) : TokenBalanceChange :=
  { accountIndex := tb.accountIndex
    mint := tb.mint
    owner := tb.owner.getD ""
    programId := tb.programId.getD ""
    uiTokenAmount :=
      { amount := tb.uiTokenAmount.amount
        decimals := tb.uiTokenAmount.decimals
        uiAmount := tb.uiTokenAmount.uiAmount
        uiAmountString := tb.uiTokenAmount.uiAmountString } }

/-- Inner-instruction conversion inside `convert_transaction_wrapper`: every
converted inner instruction gets the placeholder `programId = "unknown"`
(the code comments "extract program IDs from logs" and "Here will be using id
from each parser", but no log line is consulted). -/
def convertInnerInstructions (inner : Option (List B64InnerInstruction)) :
    List InnerInstruction :=
  (inner.getD []).map (fun g =>
    { index := g.index
      instructions := g.instructions.map (fun ix =>
        { programId := "unknown"
          stackHeight := ix.stackHeight
          data := some ix.data }) })

/-- `TransactionConverter.convert_transaction_wrapper`. -/
def convert_transaction_wrapper (tx_wrapper : B64TransactionWrapper) (slot : Int)
    (block_time : Option Int) (tx_index : Int) : Option RawTransaction :=
  if tx_wrapper.transaction.length < 2 then none
  else
    let (signatures, account_keys, instructions, recent_blockhash) :=
      decode_transaction (tx_wrapper.transaction.getD 0 [])
    let extended_account_keys :=
      match tx_wrapper.meta with
      | some m =>
          match m.loadedAddresses with
          | some la =>
              account_keys ++
                la.writable.map (fun addr =>
                  { pubkey := addr, signer := false, writable := true,
                    source := "lookupTable" }) ++
                la.readonly.map (fun addr =>
                  { pubkey := addr, signer := false, writable := false,
                    source := "lookupTable" })
          | none => account_keys
      | none => account_keys
    let transaction_message : TransactionMessage :=
      { accountKeys := extended_account_keys
        instructions := instructions
        recentBlockhash := recent_blockhash
        addressTableLookups := none }
    let parsed_transaction : ParsedTransaction :=
      { message := transaction_message, signatures := signatures }
    let meta : Option TransactionsMeta :=
      tx_wrapper.meta.map (fun wm =>
        { computeUnitsConsumed := wm.computeUnitsConsumed.getD 0
          fee := wm.fee
          innerInstructions := convertInnerInstructions wm.innerInstructions
          logMessages := wm.logMessages.getD []
          postBalances := wm.postBalances
          postTokenBalances := (wm.postTokenBalances.getD []).map convertTokenBalance
          preBalances := wm.preBalances
          preTokenBalances := (wm.preTokenBalances.getD []).map convertTokenBalance
          status :=
            match wm.err with
            | none => [("Ok", none)]
            | some e => [("Err", some e)]
          rewards := wm.rewards
          err := wm.err })
    let transaction_result : TransactionResult :=
      { blockTime := block_time.getD 0
        meta := meta
        slot := slot
        transaction := parsed_transaction
        version :=
          match tx_wrapper.version with
          | .num n => n
          | _ => 0 }
    some { jsonrpc := "2.0", result := transaction_result, id := tx_index }

/-- `TransactionConverter.convert_block_to_raw_transactions`: converts every
wrapper in order, keeping the non-`None` results.  The modelled converter
body cannot raise, so the per-transaction `except`-and-continue branch has
nothing to catch. -/
def convert_block_to_raw_transactions (block : B64Block) (slot : Int) :
    List RawTransaction :=
  block.transactions.enum.filterMap (fun (i, w) =>
    convert_transaction_wrapper w slot block.blockTime (i : Int))

/-! ## `block/block.py` — `TransactionWrapper.extend_keys_with_lookup_table_accounts` -/

/-- `TransactionHeader` (block.py / block_structs_base64.py). -/
structure TransactionHeader where
  numRequiredSignatures : Nat
  numReadonlySignedAccounts : Nat
  numReadonlyUnsignedAccounts : Nat

/-- `TransactionMessage` of `block.py` (account keys as plain address
strings). -/
structure BlockTransactionMessage where
  accountKeys : List String
  header : TransactionHeader
  recentBlockhash : String
  instructions : List B64Instruction
  addressTableLookups : Option (List String) := none

/-- `Transaction` of `block.py`. -/
structure BlockTransaction where
  message : BlockTransactionMessage
  signatures : List String

/-- `TransactionWrapper` of `block.py` (JSON-parsed form). -/
structure BlockTransactionWrapper where
  transaction : BlockTransaction
  meta : B64TransactionMeta
  version : B64Version

/-- `accountKeys[account] for account in instruction.accounts`: an
out-of-range index raises `IndexError`; indexing a list by a string (the
already-resolved form) raises `TypeError`. -/
def resolveAccountsField (keys : List String) : AccountsField → Except String (List String)
  | .indices l =>
      l.mapM (fun a =>
        match keys.get? a with
        | some k => Except.ok k
        | none => Except.error "IndexError")
  | .addresses _ => Except.error "TypeError"

/-- `TransactionWrapper.extend_keys_with_lookup_table_accounts`: appends
loaded writable then readonly addresses to the key list and replaces every
index of every outer and inner instruction with the corresponding address.
An exception leaves the Python object partially mutated; the model returns
only the failure, which is all the settled claims observe. -/
def extend_keys_with_lookup_table_accounts (w : BlockTransactionWrapper)
    (is_first_pass : Bool := true) : Except String BlockTransactionWrapper :=
  if is_first_pass then do
    let la ← match w.meta.loadedAddresses with
      | some la => Except.ok la
      | none => Except.error "AttributeError"
    let keys := w.transaction.message.accountKeys ++ la.writable ++ la.readonly
    let instrs ← w.transaction.message.instructions.mapM (fun ix => do
      let accs ← resolveAccountsField keys ix.accounts
      pure { ix with accounts := AccountsField.addresses accs })
    let inner ←
      match w.meta.innerInstructions with
      | some (g :: gs) => do
          let groups ← (g :: gs).mapM (fun grp => do
            let ixs ← grp.instructions.mapM (fun ix => do
              let accs ← resolveAccountsField keys ix.accounts
              pure { ix with accounts := AccountsField.addresses accs })
            pure { grp with instructions := ixs })
          pure (some groups)
      | other => pure other
    pure { w with
      transaction :=
        { w.transaction with
          message :=
            { w.transaction.message with accountKeys := keys, instructions := instrs } }
      meta := { w.meta with innerInstructions := inner } }
  else
    pure w

/-! ## `coders/base_coder.py` — `BaseCoder` and `CoderRegistry` -/

/-- `ParsedInstruction` of `base_coder.py`; the decoder-specific
`parsed_data: Any` payload is carried as a string. -/
structure CoderParsedInstruction where
  instruction : InstructionField
  instruction_index : Nat
  parsed_data : String
  coder_name : String

/-- `TransactionContext`: eagerly computed views of one transaction. -/
structure TransactionContext where
  raw_transaction : RawTransaction
  slot : Int
  block_time : Int
  main_signature : String
  is_successful : Bool
  signers : List String
  native_transfers : List RawTransaction.NativeTransfer
  token_transfers : List RawTransaction.TokenTransfer

/-- `TransactionContext.__init__`: every derived view is computed during
construction, so an exception in any of them propagates from here. -/
def mkTransactionContext (tx : RawTransaction) : Except String TransactionContext := do
  let isSucc ← tx.is_successful
  let native ← tx.native_transfers
  let token ← tx.token_transfers
  pure
    { raw_transaction := tx
      slot := tx.slot
      block_time := tx.block_time
      main_signature := tx.main_signature
      is_successful := isSucc
      signers := tx.signers
      native_transfers := native
      token_transfers := token }

/-- A concrete coder: `can_handle`/`parse_instruction` may raise, modelled in
`Except`. -/
structure PyCoder where
  name : String
  program_ids : List String
  can_handle : InstructionField → Except String Bool
  parse_instruction :
    InstructionField → Nat → TransactionContext → Except String (Option CoderParsedInstruction)

/-- `BaseCoder.parse_transaction`: builds the context, then walks
`all_instructions` in order, collecting the parses of handled instructions;
no exception is caught. -/
def coderParseTransaction (coder : PyCoder) (tx : RawTransaction) :
    Except String (List CoderParsedInstruction) := do
  let context ← mkTransactionContext tx
  let instructions ← tx.all_instructions
  instructions.enum.foldlM (fun acc (iIx : Nat × InstructionField) => do
    let handled ← coder.can_handle iIx.2
    if handled then
      let parsed ← coder.parse_instruction iIx.2 iIx.1 context
      match parsed with
      | some p => pure (acc ++ [p])
      | none => pure acc
    else
      pure acc) []

/-- Append `v` to the bucket of `k`, creating the bucket at the end if absent
(Python dict `setdefault`-style update used by `register`). -/
def bucketAppend (m : List (String × List PyCoder)) (k : String) (v : PyCoder) :
    List (String × List PyCoder) :=
  match m with
  | [] => [(k, [v])]
  | (k', vs) :: rest =>
      if k' = k then (k', vs ++ [v]) :: rest else (k', vs) :: bucketAppend rest k v

/-- Set `k` to `v` in an association list, keeping the original position on
overwrite (Python dict assignment used by the registry's results). -/
def assocSet (m : List (String × List CoderParsedInstruction)) (k : String)
    (v : List CoderParsedInstruction) : List (String × List CoderParsedInstruction) :=
  match m with
  | [] => [(k, v)]
  | (k', v') :: rest =>
      if k' = k then (k', v) :: rest else (k', v') :: assocSet rest k v

/-- `CoderRegistry`: the ordered coder list and the program-id index. -/
structure CoderRegistry where
  coders : List PyCoder := []
  program_to_coders : List (String × List PyCoder) := []

/-- `CoderRegistry.register` (`program_ids` is a Python set, hence
duplicate-free iteration). -/
def registerCoder (r : CoderRegistry) (coder : PyCoder) : CoderRegistry :=
  { coders := r.coders ++ [coder]
    program_to_coders :=
      coder.program_ids.dedup.foldl (fun m pid => bucketAppend m pid coder)
        r.program_to_coders }

/-- `CoderRegistry.get_coders_for_program`. -/
def getCodersForProgram (r : CoderRegistry) (program_id : String) : List PyCoder :=
  (lookupLast r.program_to_coders program_id).getD []

/-- `CoderRegistry.parse_transaction`: runs every registered coder in order
over the whole transaction; a coder's exception propagates out of the
registry. -/
def registryParseTransaction (r : CoderRegistry) (tx : RawTransaction) :
    Except String (List (String × List CoderParsedInstruction)) :=
  r.coders.foldlM (fun results coder => do
    let parsed ← coderParseTransaction coder tx
    pure (if parsed.isEmpty then results else assocSet results coder.name parsed)) []

/-! ## Shared sample data for witnesses and counterexamples -/

/-- A baseline metadata record for concrete transactions. -/
def sampleMeta : TransactionsMeta :=
  { computeUnitsConsumed := 0
    fee := 0
    innerInstructions := []
    logMessages := []
    postBalances := []
    postTokenBalances := []
    preBalances := []
    preTokenBalances := []
    status := [("Ok", none)]
    rewards := none
    err := none }

/-- A concrete transaction with the given signatures, account keys, outer
instructions, inner groups and token-balance snapshots. -/
def mkTx (sigs : List String) (accounts : List AccountKey)
    (outer : List InstructionField) (inner : List InnerInstruction)
    (preTB postTB : List TokenBalanceChange) : RawTransaction :=
  { jsonrpc := "2.0"
    result :=
      { blockTime := 0
        meta := some { sampleMeta with
          innerInstructions := inner
          preTokenBalances := preTB
          postTokenBalances := postTB }
        slot := 1
        transaction :=
          { message := { accountKeys := accounts, instructions := outer, recentBlockhash := "" }
            signatures := sigs }
        version := 0 }
    id := 0 }

/-! ## C10 — `main_signature` -/

/-- C10: `main_signature` returns the first signature when the list is
non-empty and the sentinel `"unknown_signature"` when it is empty.  The
function is total by construction, so it never raises. -/
theorem C10_main_signature (tx : RawTransaction) :
    (∀ s rest, tx.result.transaction.signatures = s :: rest → tx.main_signature = s) ∧
    (tx.result.transaction.signatures = [] → tx.main_signature = "unknown_signature") := by
  constructor
  · intro s rest h
    unfold RawTransaction.main_signature
    rw [h]
  · intro h
    unfold RawTransaction.main_signature
    rw [h]

/-- Witness for C10 at a concrete transaction. -/
theorem C10_main_signature_witness :
    (mkTx ["s1", "s2"] [] [] [] [] []).main_signature = "s1" :=
  (C10_main_signature (mkTx ["s1", "s2"] [] [] [] [] [])).1 "s1" ["s2"] rfl

/-! ## C9 — `decode_compact_u16` past-end behaviour -/

/-- C9: whenever the encoding that starts at `offset` (1, 2 or 3 bytes as
committed by the first byte) would extend past the end of the buffer —
including an offset at or beyond the end — `decode_compact_u16` returns the
value 0 with the offset unchanged. -/
theorem C9_decode_compact_u16_truncated (data : List Nat) (offset : Nat)
    (h : data.length ≤ offset ∨
      (offset < data.length ∧
        data.length < offset + compactU16NeededLen (data.getD offset 0))) :
    decode_compact_u16 data offset = (0, offset) := by
  unfold decode_compact_u16
  rcases h with h | ⟨hlt, hneed⟩
  · rw [if_pos (by omega)]
  · rw [if_neg (by omega)]
    unfold compactU16NeededLen at hneed
    by_cases h1 : data.getD offset 0 < 0x80
    · rw [if_pos h1] at hneed ⊢
      omega
    · rw [if_neg h1] at hneed ⊢
      by_cases h2 : data.getD offset 0 < 0xc0
      · rw [if_pos h2] at hneed ⊢
        rw [if_pos (by omega)]
      · rw [if_neg h2] at hneed ⊢
        rw [if_pos (by omega)]

/-- Witness for C9: a lone two-byte-class first byte with no continuation
byte decodes to `(0, 0)`. -/
theorem C9_decode_compact_u16_truncated_witness :
    decode_compact_u16 [0x80] 0 = (0, 0) :=
  C9_decode_compact_u16_truncated [0x80] 0 (by right; constructor <;> decide)

/-! ## C4 — compact-u16 round-trip -/

/-- Splicing a low field below a shifted high field: with the low field
strictly below `2 ^ k`, bitwise-or is addition. -/
theorem mul_pow_lor_eq_add : ∀ (k a b : Nat), b < 2 ^ k →
    (a * 2 ^ k) ||| b = a * 2 ^ k + b := by
  intro k
  induction k with
  | zero =>
      intro a b hb
      rw [pow_zero] at hb ⊢
      have hb0 : b = 0 := by omega
      subst hb0
      simp
  | succ k ih =>
      intro a b hb
      rw [pow_succ] at hb
      have hq := Nat.two_pow_pos k
      have hb2 : b / 2 < 2 ^ k := by omega
      have hdiv : (a * 2 ^ (k + 1)) / 2 = a * 2 ^ k := by
        rw [pow_succ, ← mul_assoc]
        exact Nat.mul_div_cancel _ (by norm_num)
      have hmod : (a * 2 ^ (k + 1)) % 2 = 0 := by
        rw [pow_succ, ← mul_assoc]
        exact Nat.mul_mod_left _ 2
      have hdivL : ((a * 2 ^ (k + 1)) ||| b) / 2 = a * 2 ^ k + b / 2 := by
        rw [Nat.or_div_two, hdiv, ih a (b / 2) hb2]
      have hmodL := Nat.or_mod_two_eq_one (a := a * 2 ^ (k + 1)) (b := b)
      have hsum := Nat.div_add_mod ((a * 2 ^ (k + 1)) ||| b) 2
      have hgoal : a * 2 ^ (k + 1) = a * 2 ^ k * 2 := by
        rw [pow_succ, ← mul_assoc]
      rw [hgoal] at hmod ⊢
      set L := (a * 2 ^ (k + 1)) ||| b with hLdef
      rw [hgoal] at hLdef
      set m := a * 2 ^ k with hm
      omega

/-- `x &&& 0x7f = x % 0x80`. -/
theorem and_0x7f (x : Nat) : x &&& 0x7f = x % 0x80 := by
  simpa using Nat.and_pow_two_sub_one_eq_mod x 7

/-- `x &&& 0x3f = x % 0x40`. -/
theorem and_0x3f (x : Nat) : x &&& 0x3f = x % 0x40 := by
  simpa using Nat.and_pow_two_sub_one_eq_mod x 6

/-- C4 counterexample: the claim's little-endian base-128 encoding of 128 is
`[0x80, 0x01]`, which the decoder reads back as 1, not 128 — the decoder
inverts a big-endian layout, so `decode(specEncode(n)) ≠ n` already in the
two-byte class. -/
theorem C4_counterexample :
    decode_compact_u16 (specCompactU16Encode 128) 0 = (1, 2) ∧
      (1, 2) ≠ ((128 : Nat), (2 : Nat)) := by
  constructor
  · decide
  · decide

/-- C4 (amended): the round-trip holds for the decoder's own big-endian
layout (`compactU16Encode`): for every `n ≤ 2^14 + 2^21 - 1`, decoding the
minimal big-endian encoding of `n` at offset 0 returns `n` with the offset
advanced by the encoding length, and the length is 1, 2 or 3 according to
`n < 0x80`, `n < 0x4000`, or larger. -/
theorem C4_code_roundtrip (n : Nat) (h : n ≤ 2 ^ 14 + 2 ^ 21 - 1) :
    decode_compact_u16 (compactU16Encode n) 0 = (n, (compactU16Encode n).length) ∧
      (compactU16Encode n).length =
        (if n < 0x80 then 1 else if n < 0x4000 then 2 else 3) := by
  by_cases h1 : n < 0x80
  · unfold compactU16Encode decode_compact_u16
    rw [if_pos h1, if_pos h1]
    simp only [List.length_cons, List.length_nil, List.getD]
    rw [if_neg (by simp), if_pos (by simpa using h1)]
    simp
  · by_cases h2 : n < 0x4000
    · unfold compactU16Encode decode_compact_u16
      rw [if_neg h1, if_pos h2, if_neg h1, if_pos h2]
      have hdivlt : n / 0x100 < 0x40 := by omega
      simp only [List.length_cons, List.length_nil, List.getD_cons_zero, List.getD_cons_succ]
      rw [if_neg (by omega), if_neg (by omega), if_pos (by omega), if_neg (by omega)]
      have hmask : (0x80 + n / 0x100) &&& 0x7f = n / 0x100 := by
        rw [and_0x7f]
        omega
      rw [hmask, Nat.shiftLeft_eq]
      have hor := mul_pow_lor_eq_add 8 (n / 0x100) (n % 0x100) (by omega)
      norm_num at hor ⊢
      omega
    · unfold compactU16Encode decode_compact_u16
      rw [if_neg h1, if_neg h2, if_neg h1, if_neg h2]
      have hdivlt : n / 0x10000 < 0x40 := by omega
      simp only [List.length_cons, List.length_nil, List.getD_cons_zero, List.getD_cons_succ]
      rw [if_neg (by omega), if_neg (by omega), if_neg (by omega), if_neg (by omega)]
      have hmask : (0xc0 + n / 0x10000) &&& 0x3f = n / 0x10000 := by
        rw [and_0x3f]
        omega
      rw [hmask, Nat.shiftLeft_eq, Nat.shiftLeft_eq]
      have hor1 := mul_pow_lor_eq_add 16 (n / 0x10000) (n / 0x100 % 0x100 * 2 ^ 8)
        (by norm_num; omega)
      have hsplit : n / 0x10000 * 2 ^ 16 + n / 0x100 % 0x100 * 2 ^ 8 =
          (n / 0x10000 * 0x100 + n / 0x100 % 0x100) * 2 ^ 8 := by ring
      have hor2 := mul_pow_lor_eq_add 8 (n / 0x10000 * 0x100 + n / 0x100 % 0x100)
        (n % 0x100) (by omega)
      norm_num at hor1 hsplit hor2 ⊢
      rw [hor1, hsplit, hor2]
      omega

/-- Witness for C4 (amended) at `n = 300`. -/
theorem C4_code_roundtrip_witness :
    decode_compact_u16 (compactU16Encode 300) 0 = (300, (compactU16Encode 300).length) ∧
      (compactU16Encode 300).length = (if 300 < 0x80 then 1 else if 300 < 0x4000 then 2 else 3) :=
  C4_code_roundtrip 300 (by norm_num)

/-! ## C6 — positional signer/writable flags -/

/-- The code's writable test agrees with the positional description: writable
iff a signer not among the last `nrss` signers, or a non-signer not among the
last `nrua` accounts. -/
theorem is_writable_flag_eq (i n nrs nrss nrua : Nat) :
    is_writable_flag i n nrs nrss nrua =
      decide ((i < nrs ∧ (i : Int) < (nrs : Int) - (nrss : Int)) ∨
        (nrs ≤ i ∧ (i : Int) < (n : Int) - (nrua : Int))) := by
  rw [Bool.eq_iff_iff]
  simp only [is_writable_flag, Bool.or_eq_true, Bool.and_eq_true, decide_eq_true_eq]
  omega

/-- Each step of the account loop emits the flags of its position. -/
theorem decodeAccountsLoop_get (data : List Nat) :
    ∀ (remaining offset i n nrs nrss nrua j : Nat), j < remaining →
      ∃ pk, ((decodeAccountsLoop data offset i n nrs nrss nrua remaining).1).get? j =
        some { pubkey := pk
               signer := is_signer_flag (i + j) nrs
               source := "transaction"
               writable := is_writable_flag (i + j) n nrs nrss nrua } := by
  intro remaining
  induction remaining with
  | zero => intro offset i n nrs nrss nrua j hj; omega
  | succ k ih =>
      intro offset i n nrs nrss nrua j hj
      rcases hdp : decode_pubkey data offset with ⟨pk, off⟩
      rcases j with _ | j
      · refine ⟨pk, ?_⟩
        simp [decodeAccountsLoop, hdp]
      · have := ih off (i + 1) n nrs nrss nrua j (by omega)
        rcases this with ⟨pk', hpk'⟩
        refine ⟨pk', ?_⟩
        simpa [decodeAccountsLoop, hdp, Nat.add_assoc, Nat.add_comm 1 j] using hpk'

/-- C6: in the account loop of `decode_transaction` (entered with running
index 0 and `num_accounts` iterations), the account at index `j` is a signer
iff `j < numRequiredSignatures`, and is writable iff it is a signer not among
the last `numReadonlySignedAccounts` signers or a non-signer not among the
last `numReadonlyUnsignedAccounts` accounts — purely positional, for every
header byte combination including `nrs = 0`, all-readonly and all-writable. -/
theorem C6_account_flags (data : List Nat) (offset n nrs nrss nrua j : Nat)
    (hj : j < n) :
    ∃ pk, ((decodeAccountsLoop data offset 0 n nrs nrss nrua n).1).get? j =
      some { pubkey := pk
             signer := decide (j < nrs)
             source := "transaction"
             writable := decide ((j < nrs ∧ (j : Int) < (nrs : Int) - (nrss : Int)) ∨
               (nrs ≤ j ∧ (j : Int) < (n : Int) - (nrua : Int))) } := by
  have := decodeAccountsLoop_get data n offset 0 n nrs nrss nrua j hj
  rcases this with ⟨pk, hpk⟩
  refine ⟨pk, ?_⟩
  simp only [Nat.zero_add] at hpk
  rw [hpk]
  have hs : is_signer_flag j nrs = decide (j < nrs) := by
    simp [is_signer_flag]
  have hw := is_writable_flag_eq j n nrs nrss nrua
  rw [hs, hw]

/-- Witness for C6 with `n = 2`, `nrs = 1`, `nrss = 1`, `nrua = 1`, `j = 0`:
the sole signer is read-only (among the last 1 read-only signers). -/
theorem C6_account_flags_witness :
    ∃ pk, ((decodeAccountsLoop [] 0 0 2 1 1 1 2).1).get? 0 =
      some { pubkey := pk
             signer := decide (0 < 1)
             source := "transaction"
             writable := decide ((0 < 1 ∧ (0 : Int) < (1 : Int) - (1 : Int)) ∨
               (1 ≤ 0 ∧ (0 : Int) < (2 : Int) - (1 : Int))) } :=
  C6_account_flags [] 0 2 1 1 1 0 (by decide)

/-! ## C1 — execution-order view -/

/-- Outer instruction `A` of the C1 examples. -/
def ixA : InstructionField := { programId := "A", stackHeight := some 1 }

/-- Outer instruction `B` of the C1 examples. -/
def ixB : InstructionField := { programId := "B", stackHeight := some 1 }

/-- Inner instruction `C` at stack height 2. -/
def ixC2 : InstructionField := { programId := "C", stackHeight := some 2 }

/-- Inner instruction `D` at stack height 2. -/
def ixD2 : InstructionField := { programId := "D", stackHeight := some 2 }

/-- Inner instruction `C` at stack height 3. -/
def ixC3 : InstructionField := { programId := "C", stackHeight := some 3 }

/-- A transaction whose inner group is reported (log order) as `[C@3, D@2]`. -/
def cexTx1 : RawTransaction :=
  mkTx [] [] [ixA] [⟨0, [ixC3, ixD2]⟩] [] []

/-- The claim's interleaving example: outer `[A, B]`, inner group `[C, D]`
attached to outer index 0, both inner instructions at stack height 2. -/
def exTx1 : RawTransaction :=
  mkTx [] [] [ixA, ixB] [⟨0, [ixC2, ixD2]⟩] [] []

/-- C1 counterexample: with the inner group reported in log order `[C@3,
D@2]`, `all_instructions` yields `[A, D, C]` — the group *is* re-sorted by
stack depth, not kept in the order the log lines report. -/
theorem C1_counterexample :
    (RawTransaction.all_instructions cexTx1).map (List.map InstructionField.programId) =
        Except.ok ["A", "D", "C"] ∧
      (Except.ok ["A", "D", "C"] : Except String (List String)) ≠ Except.ok ["A", "C", "D"] := by
  constructor
  · rfl
  · intro h
    exact absurd (Except.ok.inj h) (by decide)

/-- C1 (amended): `all_instructions` yields the outer instructions in order,
each immediately followed by its inner group *stably sorted by ascending
stack height* (missing heights last) rather than raw log order: every emitted
group is a permutation of the reported group, sorted under `stackRel`; and on
the claim's example (`[A, B]` with group `[C, D]` at outer index 0, `C` and
`D` at equal stack height) the view yields exactly `[A, C, D, B]`. -/
theorem C1_sorted_interleave :
    (∀ g : List InstructionField,
        (List.insertionSort stackRel g).Perm g ∧
          (List.insertionSort stackRel g).Sorted stackRel) ∧
      (RawTransaction.all_instructions exTx1).map (List.map InstructionField.programId) =
        Except.ok ["A", "C", "D", "B"] := by
  constructor
  · intro g
    exact ⟨List.perm_insertionSort stackRel g, List.sorted_insertionSort stackRel g⟩
  · rfl

/-! ## C2 — inner-instruction program attribution -/

/-- The claim's failing input: meta logs `["Program X invoke [1]",
"Program Y invoke [2]"]` and one inner instruction at stack height 2; the
payload is a minimal empty transaction. -/
def cexW2 : B64TransactionWrapper :=
  { transaction := [[0, 0, 0, 0], []]
    meta := some
      { err := none
        fee := 0
        preBalances := []
        postBalances := []
        innerInstructions := some [⟨0, [⟨0, .indices [], "dat", some 2⟩]⟩]
        preTokenBalances := some []
        postTokenBalances := some []
        logMessages := some ["Program X invoke [1]", "Program Y invoke [2]"]
        rewards := none }
    version := .num 0 }

/-- C2 (code bug): `convert_transaction_wrapper` attributes the placeholder
`"unknown"` to every converted inner instruction; the log-derived stack map
the claim (and the code's own comment "extract program IDs from logs")
describes is never consulted, so the inner instruction at stack height 2 is
attributed `"unknown"`, not `"Y"`. -/
theorem C2_attribution_is_placeholder :
    ((convert_transaction_wrapper cexW2 1 none 0).map (fun tx =>
        tx.result.meta.map (fun m =>
          m.innerInstructions.map (fun g => g.instructions.map (·.programId))))) =
        some (some [["unknown"]]) ∧
      "unknown" ≠ "Y" := by
  constructor
  · rfl
  · decide

/-! ## C3 — malformed payloads within a block -/

/-- A well-formed minimal payload: 1 signature, header `(1,0,0)`, one account
key, a blockhash and zero instructions. -/
def goodPayload : List Nat :=
  [1] ++ List.replicate 64 0 ++ [1, 0, 0] ++ [1] ++ List.replicate 32 0 ++
    List.replicate 32 0 ++ [0]

/-- A truncated payload: announces one signature but ends immediately. -/
def truncPayload : List Nat :=
  [1]

/-- A block holding one well-formed and one truncated transaction. -/
def cexBlock3 : B64Block :=
  { blockhash := "h"
    previousBlockhash := "p"
    parentSlot := 0
    transactions :=
      [{ transaction := [goodPayload, []], meta := none, version := .num 0 },
        { transaction := [truncPayload, []], meta := none, version := .num 0 }]
    blockTime := some 5
    blockHeight := some 1 }

/-- C3 counterexample: converting a block with one well-formed and one
truncated payload yields **two** records, not one — the truncated payload is
not dropped, it produces a degenerate record with no decoded signatures
(the well-formed one decodes its single signature). -/
theorem C3_counterexample :
    (convert_block_to_raw_transactions cexBlock3 1).length = 2 ∧
      ((convert_block_to_raw_transactions cexBlock3 1).map
          (fun tx => tx.result.transaction.signatures.length)) = [1, 0] ∧
      (2 : Nat) ≠ 1 := by
  set_option maxRecDepth 4000 in
  refine ⟨rfl, rfl, by decide⟩

/-- `convert_transaction_wrapper` succeeds exactly on wrappers whose
transaction tuple has at least two elements — payload content never makes it
fail. -/
theorem convert_transaction_wrapper_isSome (w : B64TransactionWrapper) (slot : Int)
    (bt : Option Int) (i : Int) :
    (convert_transaction_wrapper w slot bt i).isSome = decide (2 ≤ w.transaction.length) := by
  unfold convert_transaction_wrapper
  by_cases h : w.transaction.length < 2
  · rw [if_pos h]
    simp
    omega
  · rw [if_neg h]
    simp
    omega

/-- The enumerate-convert-filter loop of `convert_block_to_raw_transactions`
keeps one record per wrapper with a well-shaped transaction tuple. -/
theorem convertBlock_length_aux (slot : Int) (bt : Option Int) :
    ∀ (l : List B64TransactionWrapper) (i : Nat),
      ((l.enumFrom i).filterMap (fun p => convert_transaction_wrapper p.2 slot bt (p.1 : Int))).length =
        (l.filter (fun w => decide (2 ≤ w.transaction.length))).length := by
  intro l
  induction l with
  | nil => intro i; rfl
  | cons w rest ih =>
      intro i
      have hsome := convert_transaction_wrapper_isSome w slot bt (i : Int)
      by_cases h2 : 2 ≤ w.transaction.length
      · rcases ho : convert_transaction_wrapper w slot bt (i : Int) with _ | tx
        · rw [ho] at hsome
          simp [h2] at hsome
        · simp only [List.enumFrom_cons, List.filterMap_cons, ho, List.filter_cons,
            List.length_cons]
          rw [ih (i + 1)]
          simp [h2]
      · rcases ho : convert_transaction_wrapper w slot bt (i : Int) with _ | tx
        · simp only [List.enumFrom_cons, List.filterMap_cons, ho, List.filter_cons]
          rw [decide_eq_false (by omega)]
          simp only [Bool.false_eq_true, if_false]
          exact ih (i + 1)
        · rw [ho] at hsome
          simp [h2] at hsome

/-- C3 (amended): block conversion yields exactly one record per wrapper
whose transaction tuple has ≥ 2 entries, regardless of payload
well-formedness — a truncated payload is *not* dropped (it yields a record
with empty decoded fields, as the counterexample shows), and in particular
a failure of one payload never aborts the conversion of the rest of the
block. -/
theorem C3_no_drop (block : B64Block) (slot : Int) :
    (convert_block_to_raw_transactions block slot).length =
      (block.transactions.filter (fun w => decide (2 ≤ w.transaction.length))).length := by
  unfold convert_block_to_raw_transactions
  exact convertBlock_length_aux slot block.blockTime block.transactions 0

/-! ## C5 — out-of-range account/program indices -/

/-- Transaction bytes with one account, one instruction whose program index
is 1 (out of range) and whose single account index is 5 (out of range). -/
def cexBytes5 : List Nat :=
  [0] ++ [1, 0, 0] ++ [1] ++ List.replicate 32 0 ++ List.replicate 32 0 ++ [1] ++
    [1, 1, 5, 0]

/-- A JSON-parsed wrapper whose only instruction references account index 3
while the extended key list has a single entry. -/
def cexBW5 : BlockTransactionWrapper :=
  { transaction :=
      { message :=
          { accountKeys := ["k0"]
            header := ⟨1, 0, 0⟩
            recentBlockhash := ""
            instructions := [⟨0, .indices [3], "", some 1⟩] }
        signatures := ["s"] }
    meta :=
      { err := none
        fee := 0
        preBalances := []
        postBalances := []
        innerInstructions := none
        preTokenBalances := none
        postTokenBalances := none
        logMessages := none
        rewards := none
        loadedAddresses := some ⟨[], []⟩ }
    version := .num 0 }

/-- C5 counterexample: no resolution error exists.  In the wire decoder an
out-of-range program index resolves to the sentinel `"unknown"` and the
out-of-range account index is silently dropped; the instruction is retained
(the list has length 1) and the transaction decodes.  In
`extend_keys_with_lookup_table_accounts` — the one place an out-of-range
index does fail — the resulting `IndexError` aborts the whole extension, not
that single instruction. -/
theorem C5_counterexample :
    ((decode_transaction cexBytes5).2.2.1.map (fun ix => (ix.programId, ix.accounts))) =
        [("unknown", some ([] : List String))] ∧
      (decode_transaction cexBytes5).2.2.1.length = 1 ∧
      extend_keys_with_lookup_table_accounts cexBW5 true = Except.error "IndexError" := by
  set_option maxRecDepth 4000 in
  exact ⟨rfl, rfl, rfl⟩

/-- Bind on a successful `Except` computation applies the continuation. -/
theorem exceptOkBind {α β : Type} (a : α) (f : α → Except String β) :
    (Except.ok a >>= f) = f a := rfl

/-- Bind on a failed `Except` computation propagates the error. -/
theorem exceptErrorBind {α β : Type} (e : String) (f : α → Except String β) :
    ((Except.error e : Except String α) >>= f) = Except.error e := rfl

/-- Index resolution over a whole index list fails with `IndexError` as soon
as any index is out of range. -/
theorem mapM_getIndex_error (keys : List String) :
    ∀ (l : List Nat), (∃ i ∈ l, keys.length ≤ i) →
      l.mapM (fun a =>
          match keys.get? a with
          | some k => Except.ok k
          | none => Except.error "IndexError") = Except.error "IndexError" := by
  intro l
  induction l with
  | nil =>
      rintro ⟨i, hi, _⟩
      exact absurd hi (by simp)
  | cons x xs ih =>
      rintro ⟨i, hi, hge⟩
      rcases hx : keys.get? x with _ | k
      · rw [List.mapM_cons, hx]
        rfl
      · rcases List.mem_cons.mp hi with rfl | himem
        · obtain ⟨hxlt, -⟩ := List.get?_eq_some.mp hx
          omega
        · rw [List.mapM_cons, hx, ih ⟨i, himem, hge⟩]
          rfl

/-- C5 (amended): an index at or beyond the end of the account list never
reads out of bounds and never fails the transaction, but it does not raise a
scoped resolution error either: the wire decoder substitutes `"unknown"` for
an out-of-range program index and silently omits out-of-range account
indices (every resolved address comes from the list), while the lookup-table
resolution in `block.py` raises an `IndexError` that fails the entire
extension. -/
theorem C5_resolution_behaviour :
    (∀ (addrs : List String) (idx : Nat), addrs.length ≤ idx →
        resolveProgramId addrs idx = "unknown") ∧
      (∀ (addrs : List String) (idxs : List Nat) (a : String),
        a ∈ resolveAccounts addrs idxs → a ∈ addrs) ∧
      (∀ (keys : List String) (l : List Nat), (∃ i ∈ l, keys.length ≤ i) →
        resolveAccountsField keys (.indices l) = Except.error "IndexError") := by
  refine ⟨?_, ?_, ?_⟩
  · intro addrs idx h
    unfold resolveProgramId
    rw [if_neg (by omega)]
  · intro addrs idxs a ha
    unfold resolveAccounts at ha
    rw [List.mem_filterMap] at ha
    rcases ha with ⟨idx, _, hidx⟩
    by_cases hlt : idx < addrs.length
    · rw [if_pos hlt] at hidx
      have := List.getD_eq_getElem addrs "" hlt
      rw [this] at hidx
      rw [← Option.some.inj hidx]
      exact List.getElem_mem hlt
    · rw [if_neg hlt] at hidx
      exact absurd hidx (by simp)
  · intro keys l h
    exact mapM_getIndex_error keys l h

/-- Witness for C5 (amended) at concrete inputs. -/
theorem C5_resolution_behaviour_witness :
    resolveProgramId ["k"] 1 = "unknown" ∧
      resolveAccountsField ["k"] (.indices [2]) = Except.error "IndexError" :=
  ⟨C5_resolution_behaviour.1 ["k"] 1 (by decide),
    C5_resolution_behaviour.2.2 ["k"] [2] ⟨2, by decide, by decide⟩⟩

/-! ## C7 — decoder-internal exceptions at the registry boundary -/

/-- The instruction of the C7 scenario. -/
def cexIx7 : InstructionField := { programId := "P" }

/-- The transaction of the C7 scenario. -/
def cexTx7 : RawTransaction := mkTx [] [] [cexIx7] [] [] []

/-- A coder whose `can_handle` raises on every instruction. -/
def badCoder : PyCoder :=
  { name := "bad"
    program_ids := ["P"]
    can_handle := fun _ => Except.error "RuntimeError"
    parse_instruction := fun _ _ _ => Except.ok none }

/-- A well-behaved coder that parses every instruction. -/
def goodCoder : PyCoder :=
  { name := "good"
    program_ids := ["P"]
    can_handle := fun _ => Except.ok true
    parse_instruction := fun ix i _ =>
      Except.ok (some ⟨ix, i, "payload", "good"⟩) }

/-- The parse result the well-behaved coder produces for the C7 scenario. -/
def goodParsed : CoderParsedInstruction :=
  { instruction := cexIx7
    instruction_index := 0
    parsed_data := "payload"
    coder_name := "good" }

/-- C7 counterexample: with the raising coder registered, the registry's
`parse_transaction` raises instead of treating the failure as "no match" —
the well-behaved coder's results (present when it runs alone) are lost. -/
theorem C7_counterexample :
    registryParseTransaction (registerCoder (registerCoder {} badCoder) goodCoder) cexTx7 =
        Except.error "RuntimeError" ∧
      registryParseTransaction (registerCoder {} goodCoder) cexTx7 =
        Except.ok [("good", [goodParsed])] :=
  ⟨rfl, rfl⟩

/-- C7 (amended): nothing is caught at the registry boundary — a coder
raising during semantic parsing aborts `CoderRegistry.parse_transaction` for
the whole transaction: the registry returns the error, dropping the results
of every other decoder and leaving the remaining instructions unparsed. -/
theorem C7_exception_propagates (pre post : List PyCoder) (c : PyCoder)
    (ptc : List (String × List PyCoder)) (tx : RawTransaction) (e : String)
    (hpre : ∀ c' ∈ pre, ∃ r, coderParseTransaction c' tx = Except.ok r)
    (hc : coderParseTransaction c tx = Except.error e) :
    registryParseTransaction { coders := pre ++ c :: post, program_to_coders := ptc } tx =
      Except.error e := by
  unfold registryParseTransaction
  suffices h : ∀ (pres : List PyCoder) (acc : List (String × List CoderParsedInstruction)),
      (∀ c' ∈ pres, ∃ r, coderParseTransaction c' tx = Except.ok r) →
      (pres ++ c :: post).foldlM (fun results coder => do
        let parsed ← coderParseTransaction coder tx
        pure (if parsed.isEmpty then results else assocSet results coder.name parsed)) acc =
        Except.error e by
    exact h pre [] hpre
  intro pres
  induction pres with
  | nil =>
      intro acc _
      rw [List.nil_append, List.foldlM_cons, hc]
      rfl
  | cons p ps ih =>
      intro acc hpres
      obtain ⟨r, hr⟩ := hpres p (List.mem_cons_self p ps)
      rw [List.cons_append, List.foldlM_cons, hr]
      exact ih _ (fun c' hc' => hpres c' (List.mem_cons_of_mem p hc'))

/-- Witness for C7 (amended): the concrete raising coder placed after the
well-behaved one destroys the whole registry result. -/
theorem C7_exception_propagates_witness :
    registryParseTransaction { coders := [goodCoder, badCoder], program_to_coders := [] }
        cexTx7 = Except.error "RuntimeError" :=
  C7_exception_propagates [goodCoder] [] badCoder [] cexTx7 "RuntimeError"
    (by
      intro c' hc'
      rw [List.mem_singleton] at hc'
      subst hc'
      exact ⟨[goodParsed], rfl⟩)
    rfl

/-! ## C8 — token-transfer derivation -/

/-- A successful `lookupLast` result is a binding of the list. -/
theorem lookupLast_mem {α β : Type} [DecidableEq α] :
    ∀ (l : List (α × β)) (k : α) (v : β), lookupLast l k = some v → (k, v) ∈ l := by
  intro l
  induction l with
  | nil => intro k v h; exact absurd h (by simp [lookupLast])
  | cons kv rest ih =>
      intro k v h
      unfold lookupLast at h
      rcases hr : lookupLast rest k with _ | v'
      · rw [hr] at h
        by_cases hk : kv.1 = k
        · rw [if_pos hk] at h
          have hv := Option.some.inj h
          have hkv : kv = (k, v) := Prod.ext hk hv
          rw [hkv]
          exact List.mem_cons_self _ _
        · rw [if_neg hk] at h
          exact absurd h (by simp)
      · rw [hr] at h
        have hv := Option.some.inj h
        subst hv
        exact List.mem_cons_of_mem kv (ih k _ hr)

/-- `balanceMap` succeeds when every account index is in range, and every
stored amount string comes from one of the balance entries. -/
theorem balanceMap_ok (accounts : List String) :
    ∀ (tbs : List TokenBalanceChange),
      (∀ tb ∈ tbs, tb.accountIndex < accounts.length) →
      ∃ snap, RawTransaction.balanceMap accounts tbs = Except.ok snap ∧
        ∀ pv ∈ snap, ∃ tb ∈ tbs, pv.2 = tb.uiTokenAmount.amount := by
  intro tbs
  induction tbs with
  | nil =>
      intro _
      exact ⟨[], rfl, by simp⟩
  | cons tb rest ih =>
      intro h
      obtain ⟨snap', hsnap', hmem'⟩ := ih (fun tb' htb' => h tb' (List.mem_cons_of_mem tb htb'))
      have hlt : tb.accountIndex < accounts.length := h tb (List.mem_cons_self tb rest)
      obtain ⟨a, ha⟩ : ∃ a, accounts.get? tb.accountIndex = some a :=
        ⟨accounts.get ⟨tb.accountIndex, hlt⟩, List.get?_eq_get hlt⟩
      refine ⟨((a, tb.mint), tb.uiTokenAmount.amount) :: snap', ?_, ?_⟩
      · unfold RawTransaction.balanceMap at hsnap' ⊢
        rw [List.mapM_cons]
        have hacct : RawTransaction.accountAt accounts tb.accountIndex = Except.ok a := by
          unfold RawTransaction.accountAt
          rw [ha]
        rw [show (do
              let a ← RawTransaction.accountAt accounts tb.accountIndex
              pure ((a, tb.mint), tb.uiTokenAmount.amount) :
            Except String ((String × String) × String)) =
            Except.ok ((a, tb.mint), tb.uiTokenAmount.amount) from by rw [hacct]; rfl]
        rw [exceptOkBind, hsnap']
        rfl
      · intro pv hpv
        rcases List.mem_cons.mp hpv with rfl | hpv'
        · exact ⟨tb, List.mem_cons_self tb rest, rfl⟩
        · obtain ⟨tb', htb', he⟩ := hmem' pv hpv'
          exact ⟨tb', List.mem_cons_of_mem tb htb', he⟩

/-- `RawTransaction.snapshotVal` succeeds at every pair when every stored amount parses;
an absent pair parses as the default `"0"`. -/
theorem snapshotVal_ok (snap : List ((String × String) × String))
    (hvals : ∀ pv ∈ snap, ∃ v, pyInt pv.2 = Except.ok v) (p : String × String) :
    ∃ x, RawTransaction.snapshotVal snap p = Except.ok x := by
  unfold RawTransaction.snapshotVal
  rcases hl : lookupLast snap p with _ | s
  · exact ⟨0, rfl⟩
  · have := lookupLast_mem snap p s hl
    obtain ⟨v, hv⟩ := hvals (p, s) this
    exact ⟨v, hv⟩

/-- The accumulation loop of `token_transfers`, characterised: it succeeds,
appends to the accumulator one entry per visited pair whose snapshot values
differ, and every appended entry records the two snapshot values and their
difference. -/
theorem tokenLoop_char (pre post : List ((String × String) × String))
    (hpre : ∀ p, ∃ x, RawTransaction.snapshotVal pre p = Except.ok x)
    (hpost : ∀ p, ∃ y, RawTransaction.snapshotVal post p = Except.ok y) :
    ∀ (pairs : List (String × String)), pairs.Nodup →
      ∀ acc, ∃ ts : List RawTransaction.TokenTransfer,
        pairs.foldlM (fun acc (p : String × String) => do
            let preAmount ← RawTransaction.snapshotVal pre p
            let postAmount ← RawTransaction.snapshotVal post p
            if preAmount ≠ postAmount then
              pure (acc ++ [⟨p.1, p.2, postAmount - preAmount, preAmount, postAmount⟩])
            else
              pure acc) acc = Except.ok (acc ++ ts) ∧
          (∀ p x y, p ∈ pairs → RawTransaction.snapshotVal pre p = Except.ok x →
            RawTransaction.snapshotVal post p = Except.ok y →
            ts.countP (fun t => decide ((t.account, t.mint) = p)) =
              if x ≠ y then 1 else 0) ∧
          (∀ p, p ∉ pairs → ts.countP (fun t => decide ((t.account, t.mint) = p)) = 0) ∧
          (∀ t ∈ ts, ∃ x y, RawTransaction.snapshotVal pre (t.account, t.mint) = Except.ok x ∧
            RawTransaction.snapshotVal post (t.account, t.mint) = Except.ok y ∧
            t.pre_amount = x ∧ t.post_amount = y ∧ t.amount_change = y - x ∧ x ≠ y) := by
  intro pairs
  induction pairs with
  | nil =>
      intro _ acc
      refine ⟨[], ?_, by simp, by simp, by simp⟩
      simp only [List.foldlM_nil, List.append_nil]
      rfl
  | cons p ps ih =>
      intro hnd acc
      have hpnotin : p ∉ ps := (List.nodup_cons.mp hnd).1
      have hndps : ps.Nodup := (List.nodup_cons.mp hnd).2
      obtain ⟨x₀, hx₀⟩ := hpre p
      obtain ⟨y₀, hy₀⟩ := hpost p
      by_cases hne : x₀ = y₀
      · obtain ⟨ts', h1, h2, h3, h4⟩ := ih hndps acc
        refine ⟨ts', ?_, ?_, ?_, h4⟩
        · rw [List.foldlM_cons, hx₀, exceptOkBind, hy₀, exceptOkBind, if_neg (by omega)]
          exact h1
        · intro q x y hq hx hy
          rcases List.mem_cons.mp hq with rfl | hq'
          · have hxx := Except.ok.inj (hx₀.symm.trans hx)
            have hyy := Except.ok.inj (hy₀.symm.trans hy)
            rw [h3 q hpnotin, if_neg (by omega)]
          · exact h2 q x y hq' hx hy
        · intro q hq
          exact h3 q (fun hq' => hq (List.mem_cons_of_mem p hq'))
      · obtain ⟨ts', h1, h2, h3, h4⟩ :=
          ih hndps (acc ++ [⟨p.1, p.2, y₀ - x₀, x₀, y₀⟩])
        refine ⟨⟨p.1, p.2, y₀ - x₀, x₀, y₀⟩ :: ts', ?_, ?_, ?_, ?_⟩
        · rw [List.foldlM_cons, hx₀, exceptOkBind, hy₀, exceptOkBind, if_pos (by omega)]
          have h1' : List.foldlM (fun acc (p : String × String) => do
              let preAmount ← RawTransaction.snapshotVal pre p
              let postAmount ← RawTransaction.snapshotVal post p
              if preAmount ≠ postAmount then
                pure (acc ++ [⟨p.1, p.2, postAmount - preAmount, preAmount, postAmount⟩])
              else
                pure acc) (acc ++ [⟨p.1, p.2, y₀ - x₀, x₀, y₀⟩]) ps =
              Except.ok (acc ++ ⟨p.1, p.2, y₀ - x₀, x₀, y₀⟩ :: ts') := by
            rw [h1, List.append_assoc]
            rfl
          exact h1'

        · intro q x y hq hx hy
          rcases List.mem_cons.mp hq with rfl | hq'
          · have hxx := Except.ok.inj (hx₀.symm.trans hx)
            have hyy := Except.ok.inj (hy₀.symm.trans hy)
            rw [List.countP_cons, h3 q hpnotin]
            subst hxx hyy
            simp [hne]
          · rw [List.countP_cons]
            have hqp : q ≠ p := fun hqp => hpnotin (hqp ▸ hq')
            have hpq : p ≠ q := Ne.symm hqp
            rw [h2 q x y hq' hx hy]
            simp [Prod.mk.eta, hpq]
        · intro q hq
          have hq1 : q ≠ p := fun hqp => hq (hqp ▸ List.mem_cons_self p ps)
          have hpq : p ≠ q := Ne.symm hq1
          have hq2 : q ∉ ps := fun hq' => hq (List.mem_cons_of_mem p hq')
          rw [List.countP_cons, h3 q hq2]
          simp [Prod.mk.eta, hpq]
        · intro t ht
          rcases List.mem_cons.mp ht with rfl | ht'
          · exact ⟨x₀, y₀, hx₀, hy₀, rfl, rfl, rfl, hne⟩
          · exact h4 t ht'

/-- C8: `token_transfers` contains exactly one entry per (account, mint)
pair appearing in either snapshot whose post amount differs from its pre
amount, with `amount_change = post_amount - pre_amount`; a pair absent from
one snapshot reads the default `"0"` (amount 0) on that side, and a pair
with equal amounts produces no entry.  Hypotheses: the meta is present,
every balance entry's account index is in range and every amount string is
`int()`-parseable (otherwise the Python code raises). -/
theorem C8_token_transfers (tx : RawTransaction) (m : TransactionsMeta)
    (hm : tx.result.meta = some m)
    (hidx : ∀ tb ∈ m.preTokenBalances ++ m.postTokenBalances,
      tb.accountIndex < (tx.result.transaction.message.accountKeys.map (·.pubkey)).length)
    (hparse : ∀ tb ∈ m.preTokenBalances ++ m.postTokenBalances,
      ∃ v, pyInt tb.uiTokenAmount.amount = Except.ok v) :
    ∃ pre post ts,
      RawTransaction.balanceMap (tx.result.transaction.message.accountKeys.map (·.pubkey))
          m.preTokenBalances = Except.ok pre ∧
        RawTransaction.balanceMap (tx.result.transaction.message.accountKeys.map (·.pubkey))
          m.postTokenBalances = Except.ok post ∧
        tx.token_transfers = Except.ok ts ∧
        (∀ (p : String × String) (x y : Int),
          RawTransaction.snapshotVal pre p = Except.ok x →
          RawTransaction.snapshotVal post p = Except.ok y →
          ts.countP (fun t => decide ((t.account, t.mint) = p)) =
            if p ∈ pre.map Prod.fst ++ post.map Prod.fst ∧ x ≠ y then 1 else 0) ∧
        (∀ t ∈ ts, ∃ x y,
          RawTransaction.snapshotVal pre (t.account, t.mint) = Except.ok x ∧
          RawTransaction.snapshotVal post (t.account, t.mint) = Except.ok y ∧
          t.pre_amount = x ∧ t.post_amount = y ∧ t.amount_change = y - x ∧ x ≠ y) ∧
        (∀ (snap : List ((String × String) × String)) (p : String × String),
          lookupLast snap p = none → RawTransaction.snapshotVal snap p = Except.ok 0) := by
  obtain ⟨pre, hpreOk, hpreMem⟩ :=
    balanceMap_ok (tx.result.transaction.message.accountKeys.map (·.pubkey))
      m.preTokenBalances (fun tb h => hidx tb (List.mem_append_left _ h))
  obtain ⟨post, hpostOk, hpostMem⟩ :=
    balanceMap_ok (tx.result.transaction.message.accountKeys.map (·.pubkey))
      m.postTokenBalances (fun tb h => hidx tb (List.mem_append_right _ h))
  have hpreP : ∀ p, ∃ x, RawTransaction.snapshotVal pre p = Except.ok x := by
    refine snapshotVal_ok pre ?_
    intro pv hpv
    obtain ⟨tb, htb, he⟩ := hpreMem pv hpv
    rw [he]
    exact hparse tb (List.mem_append_left _ htb)
  have hpostP : ∀ p, ∃ y, RawTransaction.snapshotVal post p = Except.ok y := by
    refine snapshotVal_ok post ?_
    intro pv hpv
    obtain ⟨tb, htb, he⟩ := hpostMem pv hpv
    rw [he]
    exact hparse tb (List.mem_append_right _ htb)
  obtain ⟨ts, hfold, hc1, hc2, hc3⟩ :=
    tokenLoop_char pre post hpreP hpostP
      ((pre.map Prod.fst ++ post.map Prod.fst).dedup) (List.nodup_dedup _) []
  have hg : tx.getMeta = Except.ok m := by
    unfold RawTransaction.getMeta
    rw [hm]
  refine ⟨pre, post, ts, hpreOk, hpostOk, ?_, ?_, hc3, ?_⟩
  · unfold RawTransaction.token_transfers
    rw [List.nil_append] at hfold
    simp only [hg, exceptOkBind, hpreOk, hpostOk, hfold]
  · intro p x y hx hy
    by_cases hmem : p ∈ pre.map Prod.fst ++ post.map Prod.fst
    · have hdm : p ∈ (pre.map Prod.fst ++ post.map Prod.fst).dedup :=
        List.mem_dedup.mpr hmem
      rw [hc1 p x y hdm hx hy]
      by_cases hxy : x = y
      · rw [if_neg (by omega), if_neg (by tauto)]
      · rw [if_pos (by omega), if_pos ⟨hmem, hxy⟩]
    · have hdm : p ∉ (pre.map Prod.fst ++ post.map Prod.fst).dedup :=
        fun h => hmem (List.mem_dedup.mp h)
      rw [hc2 p hdm, if_neg (by tauto)]
  · intro snap p h
    unfold RawTransaction.snapshotVal
    rw [h]
    rfl

/-- The account of the C8 witness transaction. -/
def acct8 : AccountKey :=
  { pubkey := "acct1", signer := true, source := "transaction", writable := true }

/-- Pre-token-balance snapshot of the C8 witness: `(acct1, mintM) ↦ 100`. -/
def preTB8 : List TokenBalanceChange :=
  [{ accountIndex := 0
     mint := "mintM"
     owner := "own"
     programId := "tok"
     uiTokenAmount :=
       { amount := "100"
         decimals := 0
         uiAmount := none
         uiAmountString := "100" } }]

/-- Post-token-balance snapshot of the C8 witness: `(acct1, mintM) ↦ 150`. -/
def postTB8 : List TokenBalanceChange :=
  [{ accountIndex := 0
     mint := "mintM"
     owner := "own"
     programId := "tok"
     uiTokenAmount :=
       { amount := "150"
         decimals := 0
         uiAmount := none
         uiAmountString := "150" } }]

/-- The C8 witness transaction (the spec's 100 → 150 example). -/
def tx8 : RawTransaction := mkTx [] [acct8] [] [] preTB8 postTB8

/-- The metadata of the C8 witness transaction. -/
def m8 : TransactionsMeta :=
  { sampleMeta with preTokenBalances := preTB8, postTokenBalances := postTB8 }

/-- Witness for C8 at the spec's example: one balance 100 → 150. -/
theorem C8_token_transfers_witness :
    ∃ pre post ts,
      RawTransaction.balanceMap (tx8.result.transaction.message.accountKeys.map (·.pubkey))
          m8.preTokenBalances = Except.ok pre ∧
        RawTransaction.balanceMap (tx8.result.transaction.message.accountKeys.map (·.pubkey))
          m8.postTokenBalances = Except.ok post ∧
        tx8.token_transfers = Except.ok ts ∧
        (∀ (p : String × String) (x y : Int),
          RawTransaction.snapshotVal pre p = Except.ok x →
          RawTransaction.snapshotVal post p = Except.ok y →
          ts.countP (fun t => decide ((t.account, t.mint) = p)) =
            if p ∈ pre.map Prod.fst ++ post.map Prod.fst ∧ x ≠ y then 1 else 0) ∧
        (∀ t ∈ ts, ∃ x y,
          RawTransaction.snapshotVal pre (t.account, t.mint) = Except.ok x ∧
          RawTransaction.snapshotVal post (t.account, t.mint) = Except.ok y ∧
          t.pre_amount = x ∧ t.post_amount = y ∧ t.amount_change = y - x ∧ x ≠ y) ∧
        (∀ (snap : List ((String × String) × String)) (p : String × String),
          lookupLast snap p = none → RawTransaction.snapshotVal snap p = Except.ok 0) :=
  C8_token_transfers tx8 m8 rfl
    (by
      intro tb htb
      simp only [m8, preTB8, postTB8, sampleMeta, List.cons_append, List.nil_append,
        List.mem_cons, List.not_mem_nil, or_false] at htb
      rcases htb with rfl | rfl <;> decide)
    (by
      intro tb htb
      simp only [m8, preTB8, postTB8, sampleMeta, List.cons_append, List.nil_append,
        List.mem_cons, List.not_mem_nil, or_false] at htb
      rcases htb with rfl | rfl
      · exact ⟨100, rfl⟩
      · exact ⟨150, rfl⟩)

end SolanaIndexer
